import Mathlib

/-!
Verification development for the TODO-report-to-issue-backlog generator
(scripts/generate_todo_issues.py).  The script's functions are embedded
shallowly: strings are lists of characters, the Python int()/strip()/split
behaviours are modelled explicitly, the ordered regex rule table becomes an
ordered list of boolean matchers over the lower-cased search context, and the
CSV writer (excel dialect, minimal quoting) is paired with a model of the
standard CSV reader to state round-trip facts.
-/

set_option maxRecDepth 8000
set_option maxHeartbeats 1000000

abbrev Str := List Char

/-- Character list of a string literal. -/
def chars (s : String) : Str := s.data

/-- ASCII lowering, the model of Python lower() / re.IGNORECASE on ASCII text. -/
def lowerStr (s : Str) : Str := s.map Char.toLower

/-- Python whitespace recognised by str.strip() (ASCII part). -/
def isPyWs (c : Char) : Bool :=
  c == ' ' || c == '\t' || c == '\n' || c == '\r' || c == '\x0b' || c == '\x0c'

/-- Model of str.lstrip(). -/
def pyLstrip (s : Str) : Str := s.dropWhile isPyWs

/-- Model of str.rstrip(). -/
def pyRstrip (s : Str) : Str := (s.reverse.dropWhile isPyWs).reverse

/-- Model of str.strip(). -/
def pyStrip (s : Str) : Str := pyRstrip (pyLstrip s)

/-- Model of str.rstrip(<newline>), used on each raw report line. -/
def rstripNl (s : Str) : Str := (s.reverse.dropWhile (fun c => c == '\n')).reverse

/-- Split at the first occurrence of a separator, if any. -/
def splitFirst (sep : Char) : Str → Option (Str × Str)
  | [] => none
  | c :: t =>
    if c = sep then some ([], t)
    else (splitFirst sep t).map (fun p => (c :: p.1, p.2))

/-- Model of str.split(sep, 2): at most the first two separators are structural. -/
def pySplit2 (sep : Char) (s : Str) : List Str :=
  match splitFirst sep s with
  | none => [s]
  | some (a, r) =>
    match splitFirst sep r with
    | none => [a, r]
    | some (b, r2) => [a, b, r2]

def digitVal (c : Char) : Nat := c.toNat - '0'.toNat

/-- Digits of an int literal after the first one; single underscores are allowed
between digits, as in Python 3. -/
def digitsAux : Nat → Str → Option Nat
  | acc, [] => some acc
  | acc, c :: t =>
    if c.isDigit then digitsAux (acc * 10 + digitVal c) t
    else if c = '_' then
      match t with
      | [] => none
      | d :: t2 => if d.isDigit then digitsAux (acc * 10 + digitVal d) t2 else none
    else none

def natDigits : Str → Option Nat
  | [] => none
  | c :: t => if c.isDigit then digitsAux (digitVal c) t else none

/-- Sign and digit part of Python int() (ASCII digits). -/
def pyIntCore (s : Str) : Option Int :=
  match s with
  | [] => none
  | c :: t =>
    if c = '+' then (natDigits t).map (fun n => (n : Int))
    else if c = '-' then (natDigits t).map (fun n => -(n : Int))
    else (natDigits (c :: t)).map (fun n => (n : Int))

/-- Model of Python int(str): strip whitespace, optional sign, digits. -/
def pyInt (s : Str) : Option Int := pyIntCore (pyStrip s)

/-- parse_line from the script: split on the first two colons; fewer than three
parts means no finding; a non-numeric line number becomes 0. -/
def parse_line (line : Str) : Option (Str × Int × Str) :=
  match pySplit2 ':' line with
  | [a, b, c] => some (pyStrip a, (pyInt (pyStrip b)).getD 0, pyRstrip c)
  | _ => none

/-- The character class kept by sanitize_title's first substitution. -/
def isAllowedTitleChar (c : Char) : Bool :=
  c.isAlphanum || c == '-' || c == '_' || c == ' '

/-- Model of re.sub over space-or-tab runs: each maximal run becomes one space. -/
def collapseWsAux : Bool → Str → Str
  | _, [] => []
  | inRun, c :: t =>
    if c = ' ' ∨ c = '\t' then
      (if inRun then collapseWsAux true t else ' ' :: collapseWsAux true t)
    else c :: collapseWsAux false t

def collapseWs (s : Str) : Str := collapseWsAux false s

/-- sanitize_title from the script. -/
def sanitize_title (text : Str) : Str :=
  let t1 := text.filter isAllowedTitleChar
  let t2 := pyStrip t1
  let t3 := collapseWs t2
  let t4 := if 60 < t3.length then pyRstrip (t3.take 60) else t3
  if t4 = [] then chars ("todo")
  else t4.map (fun c => if c = ' ' then '_' else c)

/-- The safe-title derivation as called in main: sanitize_title on the first 80
characters of the (stripped) annotation text. -/
def deriveSafe (text : Str) : Str := sanitize_title (text.take 80)

/-- Boolean prefix test on character lists. -/
def listStarts : Str → Str → Bool
  | [], _ => true
  | _ :: _, [] => false
  | c :: p, d :: t => c == d && listStarts p t

/-- Contiguous substring occurrence, the model of the Python in operator and of
searching for a literal regex alternative. -/
def occursIn (pat : Str) : Str → Bool
  | [] => listStarts pat []
  | c :: t => listStarts pat (c :: t) || occursIn pat t

/-- The ordered marker keyword list from main. -/
def MARKERS : List Str :=
  [chars ("TODO"), chars ("FIXME"), chars ("STUB"),
   chars ("placeholder"), chars ("Temporary"), chars ("hack")]

/-- Marker detection from main: first listed keyword occurring as a
case-sensitive substring, else NOTE. -/
def detectMarker (content : Str) : Str :=
  (MARKERS.find? (fun m => occursIn m content)).getD (chars ("NOTE"))

def isWordChar (c : Char) : Bool := c.isAlphanum || c == '_'

/-- Occurrence of the regex alternative mm\b: some "mm" followed by a word
boundary (end of text or a non-word character). -/
def hasMMB : Str → Bool
  | [] => false
  | c :: t =>
    (if c = 'm' then
      match t with
      | [] => false
      | c2 :: t2 =>
        if c2 = 'm' then
          match t2 with
          | [] => true
          | c3 :: _ => !(isWordChar c3)
        else false
     else false)
    || hasMMB t

def anyInfix (pats : List Str) (s : Str) : Bool := pats.any (fun p => occursIn p s)

/-- Rule 1 pattern: syscalls|process|thread|signal|futex|sched|execve|fork|waitpid. -/
def rule1 (s : Str) : Bool :=
  anyInfix [chars ("syscalls"), chars ("process"), chars ("thread"), chars ("signal"),
    chars ("futex"), chars ("sched"), chars ("execve"), chars ("fork"), chars ("waitpid")] s

/-- Rule 2 pattern: vfs|fs|inode|directory|ext4. -/
def rule2 (s : Str) : Bool :=
  anyInfix [chars ("vfs"), chars ("fs"), chars ("inode"), chars ("directory"), chars ("ext4")] s

/-- Rule 3 pattern: memory|mmap|mincore|mlock|munlock|page|mm\b|advanced_mmap. -/
def rule3 (s : Str) : Bool :=
  anyInfix [chars ("memory"), chars ("mmap"), chars ("mincore"), chars ("mlock"),
    chars ("munlock"), chars ("page"), chars ("advanced_mmap")] s || hasMMB s

/-- Rule 4 pattern: security|permission|seccomp|selinux|aslr|smap|smep|cap. -/
def rule4 (s : Str) : Bool :=
  anyInfix [chars ("security"), chars ("permission"), chars ("seccomp"), chars ("selinux"),
    chars ("aslr"), chars ("smap"), chars ("smep"), chars ("cap")] s

/-- Rule 5 pattern: driver|virtio|device_manager|driver binding|probe. -/
def rule5 (s : Str) : Bool :=
  anyInfix [chars ("driver"), chars ("virtio"), chars ("device_manager"),
    chars ("driver binding"), chars ("probe")] s

/-- Rule 6 pattern: zero_copy|io_uring|splice|sendfile|performance|benchmark. -/
def rule6 (s : Str) : Bool :=
  anyInfix [chars ("zero_copy"), chars ("io_uring"), chars ("splice"),
    chars ("sendfile"), chars ("performance"), chars ("benchmark")] s

/-- Rule 7 pattern: graphics|gui|input|hit testing. -/
def rule7 (s : Str) : Bool :=
  anyInfix [chars ("graphics"), chars ("gui"), chars ("input"), chars ("hit testing")] s

/-- Rule 8 pattern: test|placeholder|integration_test|bench. -/
def rule8 (s : Str) : Bool :=
  anyInfix [chars ("test"), chars ("placeholder"), chars ("integration_test"), chars ("bench")] s

/-- The ordered PRIORITY_MAP rule table from the script. -/
def PRIORITY_MAP : List ((Str → Bool) × Str × Str × Nat) :=
  [(rule1, chars ("Critical"), chars ("Kernel Engineer"), 40),
   (rule2, chars ("Critical"), chars ("Filesystems Engineer"), 40),
   (rule3, chars ("High"), chars ("Memory/MM Engineer"), 32),
   (rule4, chars ("Critical"), chars ("Security Engineer"), 40),
   (rule5, chars ("High"), chars ("Driver Engineer"), 36),
   (rule6, chars ("Medium"), chars ("Performance Engineer"), 24),
   (rule7, chars ("Low"), chars ("Graphics Engineer"), 16),
   (rule8, chars ("Low"), chars ("QA/Tester"), 8)]

/-- The search context of guess_props: path, a space, then the text, compared
case-insensitively (modelled by lowering). -/
def ctxOf (path text : Str) : Str := lowerStr (path ++ ' ' :: text)

/-- guess_props from the script: first matching rule of PRIORITY_MAP wins,
with the fixed default triple when nothing matches. -/
def guess_props (path text : Str) : Str × Str × Nat :=
  match PRIORITY_MAP.find? (fun e => e.1 (ctxOf path text)) with
  | some e => e.2
  | none => (chars ("Medium"), chars ("Engineer"), 16)

/-- Map with an explicit starting index, the model of enumerate(xs, start=i). -/
def mapIdxFrom {α β : Type} (f : Nat → α → β) : Nat → List α → List β
  | _, [] => []
  | i, a :: t => f i a :: mapIdxFrom f (i + 1) t

/-- Python list slicing l[a:b] (step 1): negative bounds count from the end,
and both bounds are clamped to the list. -/
def pySlice {α : Type} (l : List α) (a b : Int) : List α :=
  let n : Int := l.length
  let a2 := if a < 0 then max 0 (n + a) else min n a
  let b2 := if b < 0 then max 0 (n + b) else min n b
  if b2 ≤ a2 then [] else (l.drop a2.toNat).take (b2 - a2).toNat

def natRepr (n : Nat) : Str := (Nat.repr n).data

def intRepr (i : Int) : Str := (Int.repr i).data

/-- The line-number tag put before each context line. -/
def lineTag (n : Nat) : Str := natRepr n ++ chars (": ")

/-- Join with newlines, the model of a newline join. -/
def joinNl : List Str → Str
  | [] => []
  | x :: xs =>
    match xs with
    | [] => x
    | _ :: _ => x ++ '\n' :: joinNl xs

/-- The context snippet built in main: Python slice from max(0, lineNo-4) to
min(lineCount, lineNo+3), each kept line tagged with its 1-based number. -/
def ctxSnippet (allLines : List Str) (lineNo : Int) : Str :=
  let start : Int := max 0 (lineNo - 4)
  let stop : Int := min (allLines.length : Int) (lineNo + 3)
  let snippet := pySlice allLines start stop
  joinNl (mapIdxFrom (fun i s => lineTag i ++ s) (start.toNat + 1) snippet)

/-- The window as the spec describes it: the lines whose 0-based indices lie in
the half-open interval from max(0, lineNo-4) up to but excluding
min(lineCount, lineNo+3). -/
def specWindow (allLines : List Str) (lineNo : Int) : List Str :=
  let start : Int := max 0 (lineNo - 4)
  let stop : Int := min (allLines.length : Int) (lineNo + 3)
  if stop ≤ start then [] else (allLines.drop start.toNat).take (stop - start).toNat

/-- One classified finding: the fields of the items dictionary built in main. -/
structure Finding where
  file : Str
  line : Int
  marker : Str
  content : Str
  context : Str
  priority : Str
  owner : Str
  estimate : Nat
  labels : Str

/-- Build one finding from a parsed line, as main does; the file system is the
map from a path to its lines when the file exists and is readable. -/
def mkItem (fs : Str → Option (List Str)) (filePath : Str) (lineNo : Int)
    (content : Str) : Finding :=
  let marker := detectMarker content
  let ctx : Str :=
    match fs filePath with
    | some allLines => ctxSnippet allLines lineNo
    | none => chars ("(file not found)")
  let props := guess_props filePath content
  { file := filePath, line := lineNo, marker := marker, content := pyStrip content,
    context := ctx, priority := props.1, owner := props.2.1, estimate := props.2.2,
    labels := lowerStr props.1 ++ ';' :: lowerStr marker }

/-- Per-raw-line processing in main's loop: strip the record terminator, skip
blank lines, then parse. -/
def processRaw (fs : Str → Option (List Str)) (raw : Str) : Option Finding :=
  let l := rstripNl raw
  if l = [] then none
  else (parse_line l).map (fun p => mkItem fs p.1 p.2.1 p.2.2)

/-- QUOTE_MINIMAL: a field is quoted iff it holds the delimiter, the quote
character, or a line-terminator character. -/
def needsQuote (f : Str) : Bool :=
  f.any (fun c => decide (c = ',' ∨ c = '"' ∨ c = '\r' ∨ c = '\n'))

/-- Double each quote character, the csv escaping rule. -/
def dupQuotes : Str → Str
  | [] => []
  | c :: t => if c = '"' then '"' :: '"' :: dupQuotes t else c :: dupQuotes t

def renderField (f : Str) : Str :=
  if needsQuote f then '"' :: (dupQuotes f ++ ['"']) else f

def renderRow : List Str → Str
  | [] => []
  | f :: fs =>
    match fs with
    | [] => renderField f
    | _ :: _ => renderField f ++ ',' :: renderRow fs

/-- The csv writer output: each record is terminated with CRLF. -/
def renderTable : List (List Str) → Str
  | [] => []
  | r :: rs => renderRow r ++ '\r' :: '\n' :: renderTable rs

/-- The fixed fieldnames row of the DictWriter. -/
def csvHeader : List Str :=
  [chars ("id"), chars ("file"), chars ("line"), chars ("marker"), chars ("content"),
   chars ("context"), chars ("priority"), chars ("owner"), chars ("estimate_hours"),
   chars ("labels")]

/-- One csv data row: the finding's fields in column order, numbers rendered
in decimal as str() does. -/
def itemRow (i : Nat) (it : Finding) : List Str :=
  [natRepr i, it.file, intRepr it.line, it.marker, it.content, it.context,
   it.priority, it.owner, natRepr it.estimate, it.labels]

def csvRows (items : List Finding) : List (List Str) := mapIdxFrom itemRow 1 items

def csvOutput (items : List Finding) : Str := renderTable (csvHeader :: csvRows items)

/-- CSV reader, quoted-field state: stop at a lone quote, keep a doubled one. -/
def parseQ : Str → Str × Str
  | [] => ([], [])
  | c :: t =>
    if c = '"' then
      match t with
      | [] => ([], [])
      | c2 :: t2 =>
        if c2 = '"' then
          let p := parseQ t2
          ('"' :: p.1, p.2)
        else ([], t)
    else
      let p := parseQ t
      (c :: p.1, p.2)

/-- CSV reader, unquoted-field state: stop at the delimiter or record end. -/
def parseU : Str → Str × Str
  | [] => ([], [])
  | c :: t =>
    if c = ',' ∨ c = '\r' then ([], c :: t)
    else
      let p := parseU t
      (c :: p.1, p.2)

def parseField (s : Str) : Str × Str :=
  match s with
  | [] => ([], [])
  | c :: t => if c = '"' then parseQ t else parseU (c :: t)

/-- CSV reader, one record: fields separated by commas up to a CRLF. -/
def parseRowF : Nat → Str → List Str × Str
  | 0, s => ([], s)
  | fuel + 1, s =>
    let p := parseField s
    match p.2 with
    | [] => ([p.1], [])
    | c :: t =>
      if c = ',' then (p.1 :: (parseRowF fuel t).1, (parseRowF fuel t).2)
      else if c = '\r' then
        (match t with
         | [] => ([p.1], c :: t)
         | d :: t2 => if d = '\n' then ([p.1], t2) else ([p.1], c :: t))
      else ([p.1], c :: t)

def parseTableF : Nat → Str → List (List Str)
  | 0, _ => []
  | fuel + 1, s =>
    if s = [] then []
    else
      let p := parseRowF (s.length + 1) s
      p.1 :: parseTableF fuel p.2

/-- CSV reader over a whole file. -/
def parseTable (s : Str) : List (List Str) := parseTableF (s.length + 1) s

/-- Zero padding to width 4, the 04d format of the id. -/
def pad4 (n : Nat) : Str :=
  let s := natRepr n
  if s.length < 4 then List.replicate (4 - s.length) '0' ++ s else s

/-- Per-item document file name: padded id, dash, safe title, extension. -/
def docName (i : Nat) (it : Finding) : Str :=
  pad4 i ++ '-' :: (deriveSafe it.content ++ chars (".md"))

/-- Per-item document title, with the fallback for empty content. -/
def docTitle (it : Finding) : Str :=
  if it.content = [] then chars ("TODO in ") ++ it.file ++ ':' :: intRepr it.line
  else it.content

def docsOf (items : List Finding) : List (Str × Str) :=
  mapIdxFrom (fun i it => (docName i it, docTitle it)) 1 items

/-- The observable outputs of one run. -/
structure RunOutput where
  findings : List Finding
  csv : Option Str
  docs : List (Str × Str)
  readmeWritten : Bool
  outdirCreated : Bool

/-- main: when the input report is missing, report and stop with no outputs;
otherwise parse the lines, then write the csv, the documents and the index. -/
def runMain (inputExists : Bool) (rawLines : List Str)
    (fs : Str → Option (List Str)) : RunOutput :=
  if inputExists then
    let items := rawLines.filterMap (processRaw fs)
    { findings := items, csv := some (csvOutput items), docs := docsOf items,
      readmeWritten := true, outdirCreated := true }
  else
    { findings := [], csv := none, docs := [], readmeWritten := false,
      outdirCreated := false }

/-- Safe output characters of the title derivation. -/
def safeChar (c : Char) : Bool := c.isAlphanum || c == '-' || c == '_'

/-- A five-line file used to exhibit the negative-line-number slice behaviour. -/
def exLines : List Str :=
  [chars ("a"), chars ("b"), chars ("c"), chars ("d"), chars ("e")]

/-- First-match characterisation of List.find?: a hit at index i wins when all
earlier entries miss. -/
theorem find?_first {α : Type} (p : α → Bool) :
    ∀ (l : List α) (i : Nat) (x : α), l.get? i = some x → p x = true →
      (∀ j y, j < i → l.get? j = some y → p y = false) → l.find? p = some x := by
  intro l
  induction l with
  | nil => intro i x hg _ _; simp [List.get?] at hg
  | cons a t ih =>
    intro i x hg hp hb
    cases i with
    | zero =>
      have hx : a = x := Option.some.inj hg
      subst hx
      rw [List.find?_cons_of_pos _ (by simp [hp])]
    | succ n =>
      have ha : p a = false := hb 0 a (Nat.succ_pos n) rfl
      have hg2 : t.get? n = some x := hg
      rw [List.find?_cons_of_neg _ (by simp [ha])]
      exact ih n x hg2 hp (fun j y hj hgj => hb (j + 1) y (Nat.succ_lt_succ hj) hgj)

/-- Splitting just after a separator-free chunk finds that chunk. -/
theorem splitFirst_no_sep (sep : Char) :
    ∀ (a r : Str), sep ∉ a → splitFirst sep (a ++ sep :: r) = some (a, r) := by
  intro a
  induction a with
  | nil => intro r _; simp [splitFirst]
  | cons c t ih =>
    intro r h
    have hc : ¬(c = sep) := fun e => h (by simp [e])
    have ht : sep ∉ t := fun hm => h (List.mem_cons_of_mem c hm)
    simp [splitFirst, hc, ih r ht]

/-- pySplit2 on a line with two structural colons gives exactly three parts. -/
theorem pySplit2_two (a b c : Str) (ha : ':' ∉ a) (hb : ':' ∉ b) :
    pySplit2 ':' (a ++ ':' :: (b ++ ':' :: c)) = [a, b, c] := by
  simp [pySplit2, splitFirst_no_sep ':' a (b ++ ':' :: c) ha, splitFirst_no_sep ':' b c hb]

/-- parse_line on a line with two structural colons. -/
theorem parse_line_split (a b c : Str) (ha : ':' ∉ a) (hb : ':' ∉ b) :
    parse_line (a ++ ':' :: (b ++ ':' :: c))
      = some (pyStrip a, (pyInt (pyStrip b)).getD 0, pyRstrip c) := by
  simp [parse_line, pySplit2_two a b c ha hb]

/-- C1: the classifier evaluates the fixed 8-entry rule table in order against
the case-insensitive concatenation of path and text; the first matching rule's
triple is returned, an input matching both rule 1 and rule 5 gets rule 1's
triple (Critical, Kernel Engineer, 40), and when no rule matches the default
triple (Medium, Engineer, 16) is returned. -/
theorem claim_c1 :
    (∀ (path text : Str) (i : Nat) (e : (Str → Bool) × Str × Str × Nat),
        PRIORITY_MAP.get? i = some e → e.1 (ctxOf path text) = true →
        (∀ j e2, j < i → PRIORITY_MAP.get? j = some e2 → e2.1 (ctxOf path text) = false) →
        guess_props path text = e.2)
    ∧ (∀ path text : Str, (∀ e ∈ PRIORITY_MAP, e.1 (ctxOf path text) = false) →
        guess_props path text = (chars ("Medium"), chars ("Engineer"), 16))
    ∧ (rule1 (ctxOf (chars ("kernel/sched.c")) (chars ("fix driver probe"))) = true
        ∧ rule5 (ctxOf (chars ("kernel/sched.c")) (chars ("fix driver probe"))) = true
        ∧ guess_props (chars ("kernel/sched.c")) (chars ("fix driver probe"))
            = (chars ("Critical"), chars ("Kernel Engineer"), 40)) := by
  refine ⟨?_, ?_, by decide, by decide, by decide⟩
  · intro path text i e hg hp hb
    unfold guess_props
    rw [find?_first (fun e2 => e2.1 (ctxOf path text)) PRIORITY_MAP i e hg hp hb]
  · intro path text hall
    unfold guess_props
    rw [List.find?_eq_none.mpr (fun e he => by simp [hall e he])]


/-- C1 witness: the concrete rule-1-and-rule-5 input through the first-match
statement at index 0. -/
theorem claim_c1_witness :
    PRIORITY_MAP.get? 0 = some (rule1, chars ("Critical"), chars ("Kernel Engineer"), 40)
    ∧ rule1 (ctxOf (chars ("kernel/sched.c")) (chars ("fix driver probe"))) = true
    ∧ guess_props (chars ("kernel/sched.c")) (chars ("fix driver probe"))
        = (chars ("Critical"), chars ("Kernel Engineer"), 40) :=
  ⟨rfl, by decide,
    claim_c1.1 _ _ 0 _ rfl (by decide) (fun j e2 hj _ => absurd hj (Nat.not_lt_zero j))⟩

/-- C2: the marker is the first of the six ordered literals occurring in the
annotation text as a case-sensitive substring, and it is NOTE exactly when none
of the six occurs. -/
theorem claim_c2 (text : Str) :
    (∀ (i : Nat) (m : Str), MARKERS.get? i = some m → occursIn m text = true →
        (∀ j m2, j < i → MARKERS.get? j = some m2 → occursIn m2 text = false) →
        detectMarker text = m)
    ∧ (detectMarker text = chars ("NOTE") ↔ ∀ m ∈ MARKERS, occursIn m text = false) := by
  constructor
  · intro i m hg hp hb
    unfold detectMarker
    rw [find?_first (fun m2 => occursIn m2 text) MARKERS i m hg hp hb]
    rfl
  · constructor
    · intro hnote m hm
      by_contra hocc
      have hocc' : occursIn m text = true := by
        revert hocc; cases occursIn m text <;> simp
      cases hfind : MARKERS.find? (fun m2 => occursIn m2 text) with
      | none => exact (by simpa [hocc'] using List.find?_eq_none.mp hfind m hm)
      | some m0 =>
        have hm0 : m0 ∈ MARKERS := List.mem_of_find?_eq_some hfind
        have hdm : detectMarker text = m0 := by unfold detectMarker; rw [hfind]; rfl
        rw [hnote] at hdm
        rw [← hdm] at hm0
        revert hm0; decide
    · intro hall
      unfold detectMarker
      rw [List.find?_eq_none.mpr (fun m hm => by simp [hall m hm])]
      rfl

/-- C2 witness: a text holding FIXME and hack but neither TODO nor the others
earlier than FIXME gets marker FIXME. -/
theorem claim_c2_witness :
    MARKERS.get? 1 = some (chars ("FIXME"))
    ∧ occursIn (chars ("FIXME")) (chars ("see hack FIXME")) = true
    ∧ detectMarker (chars ("see hack FIXME")) = chars ("FIXME") :=
  ⟨rfl, by decide,
    (claim_c2 _).1 1 _ rfl (by decide)
      (by
        intro j m2 hj hg
        have hj0 : j = 0 := Nat.lt_one_iff.mp hj
        subst hj0
        have hm2 : m2 = chars ("TODO") := by
          have := hg.symm
          simpa [List.get?] using this
        subst hm2
        decide)⟩

/-- C3: a line splits on its first two colons into path, line number and
remainder; fewer than three parts yields no finding; a non-numeric line number
becomes 0 rather than dropping the line; a line empty after removing the
record terminator is skipped before parsing. -/
theorem claim_c3 :
    (∀ a b c : Str, ':' ∉ a → ':' ∉ b →
        parse_line (a ++ ':' :: (b ++ ':' :: c))
          = some (pyStrip a, (pyInt (pyStrip b)).getD 0, pyRstrip c))
    ∧ (∀ line : Str, (pySplit2 ':' line).length < 3 → parse_line line = none)
    ∧ (∀ a b c : Str, ':' ∉ a → ':' ∉ b → pyInt (pyStrip b) = none →
        parse_line (a ++ ':' :: (b ++ ':' :: c)) = some (pyStrip a, 0, pyRstrip c))
    ∧ (∀ (fs : Str → Option (List Str)) (raw : Str), rstripNl raw = [] →
        processRaw fs raw = none) := by
  refine ⟨fun a b c ha hb => parse_line_split a b c ha hb, ?_, ?_, ?_⟩
  · intro line hlen
    rcases h : pySplit2 ':' line with _ | ⟨x, _ | ⟨y, _ | ⟨z, w⟩⟩⟩
    · simp [parse_line, h]
    · simp [parse_line, h]
    · simp [parse_line, h]
    · simp [h] at hlen; omega
  · intro a b c ha hb hnone
    rw [parse_line_split a b c ha hb, hnone]
    rfl
  · intro fs raw h
    simp [processRaw, h]

/-- C3 witness: a well-formed line at concrete values. -/
theorem claim_c3_witness :
    (':' ∉ chars ("a.c")) ∧ (':' ∉ chars ("12"))
    ∧ parse_line (chars ("a.c") ++ ':' :: (chars ("12") ++ ':' :: chars (" TODO x")))
        = some (chars ("a.c"), 12, chars (" TODO x")) :=
  ⟨by decide, by decide,
    (claim_c3.1 (chars ("a.c")) (chars ("12")) (chars (" TODO x"))
        (by decide) (by decide)).trans (by decide)⟩

/-- C8 counterexample: the line-number field -5 parses, so sourceLine is
negative, and the field 0 parses, so sourceLine 0 also arises from a parsable
field — both directions of the claim fail. -/
theorem claim_c8_cex :
    parse_line (chars ("a.c:-5:x")) = some (chars ("a.c"), -5, chars ("x"))
    ∧ ((-5 : Int) < 0)
    ∧ parse_line (chars ("a.c:0:x")) = some (chars ("a.c"), 0, chars ("x"))
    ∧ pyInt (chars ("0")) = some 0 :=
  ⟨by decide, by decide, by decide, by decide⟩

/-- C8 amended: sourceLine equals the parsed integer value of the line-number
field when it parses (possibly zero or negative), and 0 when it does not. -/
theorem claim_c8 (a b c : Str) (ha : ':' ∉ a) (hb : ':' ∉ b) :
    ∃ p : Str × Int × Str, parse_line (a ++ ':' :: (b ++ ':' :: c)) = some p
      ∧ ((pyInt (pyStrip b) = none ∧ p.2.1 = 0) ∨ pyInt (pyStrip b) = some p.2.1) := by
  refine ⟨(pyStrip a, (pyInt (pyStrip b)).getD 0, pyRstrip c),
    parse_line_split a b c ha hb, ?_⟩
  cases h : pyInt (pyStrip b) with
  | none => exact Or.inl ⟨rfl, by simp [h]⟩
  | some v => exact Or.inr (by simp [h])

/-- C8 witness: the amended statement at the concrete negative field. -/
theorem claim_c8_witness :
    (':' ∉ chars ("a.c")) ∧ (':' ∉ chars ("-5"))
    ∧ ∃ p : Str × Int × Str,
        parse_line (chars ("a.c") ++ ':' :: (chars ("-5") ++ ':' :: chars ("x"))) = some p
        ∧ ((pyInt (pyStrip (chars ("-5"))) = none ∧ p.2.1 = 0)
            ∨ pyInt (pyStrip (chars ("-5"))) = some p.2.1) :=
  ⟨by decide, by decide, claim_c8 _ _ _ (by decide) (by decide)⟩

/-- C9: a missing input report gives a run with zero findings and zero output
files: no csv, no documents, no index, no output directory. -/
theorem claim_c9 (rawLines : List Str) (fs : Str → Option (List Str)) :
    (runMain false rawLines fs).findings = []
    ∧ (runMain false rawLines fs).csv = none
    ∧ (runMain false rawLines fs).docs = []
    ∧ (runMain false rawLines fs).readmeWritten = false
    ∧ (runMain false rawLines fs).outdirCreated = false :=
  ⟨rfl, rfl, rfl, rfl, rfl⟩

/-- C10: a line with two colons and nothing after the second yields a finding
with empty text and marker NOTE, its document named with the todo fallback and
titled with the TODO-in-file-line fallback. -/
theorem claim_c10 :
    (runMain true [chars ("a.c:1:")] (fun _ => none)).findings.map
        (fun it => (it.content, it.marker)) = [(([] : Str), chars ("NOTE"))]
    ∧ (runMain true [chars ("a.c:1:")] (fun _ => none)).docs
        = [(chars ("0001-todo.md"), chars ("TODO in a.c:1"))] :=
  ⟨by decide, by decide⟩

/-- dropWhile is the identity when the predicate never holds. -/
theorem dropWhile_all_false {q : Char → Bool} (l : Str) (h : ∀ c ∈ l, q c = false) :
    l.dropWhile q = l := by
  cases l with
  | nil => rfl
  | cons c t => simp [List.dropWhile_cons, h c (by simp)]

theorem pyRstrip_noop (l : Str) (h : ∀ c ∈ l, isPyWs c = false) : pyRstrip l = l := by
  unfold pyRstrip
  rw [dropWhile_all_false l.reverse (fun c hc => h c (List.mem_reverse.mp hc))]
  exact List.reverse_reverse l

theorem pyStrip_noop (l : Str) (h : ∀ c ∈ l, isPyWs c = false) : pyStrip l = l := by
  unfold pyStrip pyLstrip
  rw [dropWhile_all_false l h]
  exact pyRstrip_noop l h

theorem mem_pyRstrip (l : Str) (c : Char) (h : c ∈ pyRstrip l) : c ∈ l := by
  unfold pyRstrip at h
  exact List.mem_reverse.mp ((List.dropWhile_sublist isPyWs).subset (List.mem_reverse.mp h))

theorem mem_pyStrip (l : Str) (c : Char) (h : c ∈ pyStrip l) : c ∈ l := by
  unfold pyStrip pyLstrip at h
  exact (List.dropWhile_sublist isPyWs).subset (mem_pyRstrip _ c h)

theorem pyRstrip_length_le (l : Str) : (pyRstrip l).length ≤ l.length := by
  unfold pyRstrip
  calc (l.reverse.dropWhile isPyWs).reverse.length
      = (l.reverse.dropWhile isPyWs).length := List.length_reverse _
    _ ≤ l.reverse.length := (List.dropWhile_sublist isPyWs).length_le
    _ = l.length := List.length_reverse l

theorem mem_collapseWsAux (b : Bool) (l : Str) (c : Char) :
    c ∈ collapseWsAux b l → c = ' ' ∨ c ∈ l := by
  induction l generalizing b with
  | nil => intro h; simp [collapseWsAux] at h
  | cons d t ih =>
    intro h
    by_cases hd : d = ' ' ∨ d = '\t'
    · rw [collapseWsAux, if_pos hd] at h
      cases b with
      | true =>
        rw [if_pos rfl] at h
        rcases ih true h with h1 | h1
        · exact Or.inl h1
        · exact Or.inr (List.mem_cons_of_mem d h1)
      | false =>
        rw [if_neg (by simp)] at h
        rcases List.mem_cons.mp h with h1 | h1
        · exact Or.inl h1
        · rcases ih true h1 with h2 | h2
          · exact Or.inl h2
          · exact Or.inr (List.mem_cons_of_mem d h2)
    · rw [collapseWsAux, if_neg hd] at h
      rcases List.mem_cons.mp h with h1 | h1
      · exact Or.inr (h1 ▸ List.mem_cons_self d t)
      · rcases ih false h1 with h2 | h2
        · exact Or.inl h2
        · exact Or.inr (List.mem_cons_of_mem d h2)

theorem collapseWs_noop (l : Str) (h : ∀ c ∈ l, ¬(c = ' ' ∨ c = '\t')) :
    collapseWs l = l := by
  unfold collapseWs
  induction l with
  | nil => rfl
  | cons d t ih =>
    rw [collapseWsAux, if_neg (h d (by simp))]
    rw [ih (fun c hc => h c (List.mem_cons_of_mem d hc))]

theorem map_noop_no_space (l : Str) (h : ∀ c ∈ l, ¬(c = ' ')) :
    l.map (fun c => if c = ' ' then '_' else c) = l := by
  have : l.map (fun c => if c = ' ' then '_' else c) = l.map id :=
    List.map_congr_left (fun a ha => by simp [h a ha])
  simpa using this

theorem safeChar_split (c : Char) (h : safeChar c = true) :
    c.isAlphanum = true ∨ c = '-' ∨ c = '_' := by
  simp only [safeChar, Bool.or_eq_true, beq_iff_eq] at h
  tauto

theorem alphanum_ne (c d : Char) (h : c.isAlphanum = true) (hd : d.isAlphanum = false) :
    ¬(c = d) := by
  intro e; subst e; rw [h] at hd; cases hd

theorem allowed_not_space_safe (c : Char) (h : isAllowedTitleChar c = true)
    (hs : ¬(c = ' ')) : safeChar c = true := by
  simp only [isAllowedTitleChar, Bool.or_eq_true, beq_iff_eq] at h
  simp only [safeChar, Bool.or_eq_true, beq_iff_eq]
  tauto

theorem safe_not_ws (c : Char) (h : safeChar c = true) : isPyWs c = false := by
  rcases safeChar_split c h with h1 | h1 | h1
  · simp [isPyWs, alphanum_ne c ' ' h1 (by decide), alphanum_ne c '\t' h1 (by decide),
      alphanum_ne c '\n' h1 (by decide), alphanum_ne c '\r' h1 (by decide),
      alphanum_ne c '\x0b' h1 (by decide), alphanum_ne c '\x0c' h1 (by decide)]
  · subst h1; decide
  · subst h1; decide

theorem safe_not_space_tab (c : Char) (h : safeChar c = true) : ¬(c = ' ' ∨ c = '\t') := by
  rcases safeChar_split c h with h1 | h1 | h1
  · rintro (e | e) <;> subst e <;> exact absurd h1 (by decide)
  · subst h1; rintro (e | e) <;> exact absurd e (by decide)
  · subst h1; rintro (e | e) <;> exact absurd e (by decide)

theorem safe_allowed (c : Char) (h : safeChar c = true) : isAllowedTitleChar c = true := by
  simp only [safeChar, Bool.or_eq_true, beq_iff_eq] at h
  simp only [isAllowedTitleChar, Bool.or_eq_true, beq_iff_eq]
  tauto

/-- Every sanitize_title output is nonempty, made of safe characters, and at
most 60 long. -/
theorem sanitize_props (t : Str) :
    sanitize_title t ≠ []
    ∧ (∀ c ∈ sanitize_title t, safeChar c = true)
    ∧ (sanitize_title t).length ≤ 60 := by
  unfold sanitize_title
  dsimp only
  set y := collapseWs (pyStrip (t.filter isAllowedTitleChar)) with hy
  set t4 := if 60 < y.length then pyRstrip (y.take 60) else y with ht4
  have hmem : ∀ c ∈ t4, isAllowedTitleChar c = true := by
    intro c hc
    have hcy : c ∈ y := by
      rw [ht4] at hc
      by_cases h60 : 60 < y.length
      · rw [if_pos h60] at hc
        exact (List.take_sublist 60 y).subset (mem_pyRstrip _ c hc)
      · rwa [if_neg h60] at hc
    rw [hy] at hcy
    rcases mem_collapseWsAux false _ c hcy with h1 | h1
    · simp [isAllowedTitleChar, h1]
    · exact List.of_mem_filter (mem_pyStrip _ c h1)
  have hlen : t4.length ≤ 60 := by
    rw [ht4]
    by_cases h60 : 60 < y.length
    · rw [if_pos h60]
      calc (pyRstrip (y.take 60)).length ≤ (y.take 60).length := pyRstrip_length_le _
        _ ≤ 60 := by rw [List.length_take]; omega
    · rw [if_neg h60]; omega
  by_cases h4 : t4 = []
  · rw [if_pos h4]
    refine ⟨by decide, by decide, by decide⟩
  · rw [if_neg h4]
    refine ⟨by simpa [List.map_eq_nil_iff] using h4, ?_, by simpa using hlen⟩
    intro c hc
    obtain ⟨c2, hc2, rfl⟩ := List.mem_map.mp hc
    by_cases hsp : c2 = ' '
    · rw [if_pos hsp]; decide
    · rw [if_neg hsp]
      exact allowed_not_space_safe c2 (hmem c2 hc2) hsp

/-- sanitize_title fixes every string that is already a nonempty safe token of
length at most 60. -/
theorem sanitize_fixed (y : Str) (hne : y ≠ []) (hsafe : ∀ c ∈ y, safeChar c = true)
    (hlen : y.length ≤ 60) : sanitize_title y = y := by
  unfold sanitize_title
  dsimp only
  rw [List.filter_eq_self.mpr (fun a ha => by simp [safe_allowed a (hsafe a ha)])]
  rw [pyStrip_noop y (fun c hc => safe_not_ws c (hsafe c hc))]
  rw [collapseWs_noop y (fun c hc => safe_not_space_tab c (hsafe c hc))]
  rw [if_neg (by omega : ¬(60 < y.length))]
  rw [if_neg hne]
  exact map_noop_no_space y (fun c hc e =>
    safe_not_space_tab c (hsafe c hc) (Or.inl e))

/-- C7: the safe-title derivation is total and idempotent: it always gives a
nonempty token of alphanumerics, hyphens and underscores, and applying it to
its own output changes nothing. -/
theorem claim_c7 (text : Str) :
    deriveSafe text ≠ []
    ∧ (∀ c ∈ deriveSafe text, safeChar c = true)
    ∧ deriveSafe (deriveSafe text) = deriveSafe text := by
  obtain ⟨hne, hsafe, hlen⟩ := sanitize_props (text.take 80)
  refine ⟨hne, hsafe, ?_⟩
  unfold deriveSafe
  rw [List.take_of_length_le (le_trans hlen (by omega))]
  exact sanitize_fixed _ hne hsafe hlen

/-- For line numbers at least -3 the Python slice agrees with the spec's
index-interval reading of the window. -/
theorem pySlice_window (allLines : List Str) (lineNo : Int) (h : -3 ≤ lineNo) :
    pySlice allLines (max 0 (lineNo - 4)) (min (allLines.length : Int) (lineNo + 3))
      = specWindow allLines lineNo := by
  unfold pySlice specWindow
  dsimp only
  have hn : (0 : Int) ≤ (allLines.length : Int) := Int.ofNat_nonneg _
  have ha : ¬(max 0 (lineNo - 4) < 0) := by omega
  have hb : ¬(min (allLines.length : Int) (lineNo + 3) < 0) := by omega
  rw [if_neg ha, if_neg hb]
  have hmin : min (allLines.length : Int) (min (allLines.length : Int) (lineNo + 3))
      = min (allLines.length : Int) (lineNo + 3) := by omega
  rw [hmin]
  by_cases hc : min (allLines.length : Int) (lineNo + 3) ≤ max 0 (lineNo - 4)
  · rw [if_pos (by omega), if_pos hc]
  · rw [if_neg (by omega), if_neg hc]
    have hms : min (allLines.length : Int) (max 0 (lineNo - 4)) = max 0 (lineNo - 4) := by
      omega
    rw [hms]

/-- C6 counterexample: at line number -4 on a five-line file the code's
snippet holds four numbered lines while the claim's index window is empty. -/
theorem claim_c6_cex :
    ctxSnippet exLines (-4)
      ≠ joinNl (mapIdxFrom (fun i s => lineTag i ++ s)
          ((max 0 ((-4 : Int) - 4)).toNat + 1) (specWindow exLines (-4)))
    ∧ specWindow exLines (-4) = []
    ∧ ctxSnippet exLines (-4) = chars ("1: a\n2: b\n3: c\n4: d") :=
  ⟨by decide, by decide, by decide⟩

/-- C6 amended: for every requested line number at least -3 (so in particular
every nonnegative one) the snippet is exactly the lines with 0-based indices
from max(0, lineNo-4) up to but excluding min(lineCount, lineNo+3), each
prefixed with its 1-based number, and it has exactly 7 lines when not clipped;
below -3 Python's negative slice end counts from the end of the file instead. -/
theorem claim_c6 (allLines : List Str) (lineNo : Int) (h : -3 ≤ lineNo) :
    ctxSnippet allLines lineNo
      = joinNl (mapIdxFrom (fun i s => lineTag i ++ s)
          ((max 0 (lineNo - 4)).toNat + 1) (specWindow allLines lineNo))
    ∧ (4 ≤ lineNo → lineNo + 3 ≤ (allLines.length : Int) →
        (specWindow allLines lineNo).length = 7) := by
  constructor
  · unfold ctxSnippet
    dsimp only
    rw [pySlice_window allLines lineNo h]
  · intro h4 hle
    unfold specWindow
    dsimp only
    have hmax : max 0 (lineNo - 4) = lineNo - 4 := by omega
    have hmin : min (allLines.length : Int) (lineNo + 3) = lineNo + 3 := by omega
    rw [hmax, hmin, if_neg (by omega)]
    rw [List.length_take, List.length_drop]
    have h1 : (lineNo + 3 - (lineNo - 4)).toNat = 7 := by omega
    rw [h1]
    omega

/-- C6 witness: the amended statement at a nine-line file and line 5. -/
theorem claim_c6_witness :
    ((-3 : Int) ≤ 5)
    ∧ (ctxSnippet (List.replicate 9 (chars ("x"))) 5
        = joinNl (mapIdxFrom (fun i s => lineTag i ++ s)
            ((max 0 ((5 : Int) - 4)).toNat + 1)
            (specWindow (List.replicate 9 (chars ("x"))) 5))
      ∧ (4 ≤ (5 : Int) →
          (5 : Int) + 3 ≤ ((List.replicate 9 (chars ("x"))).length : Int) →
          (specWindow (List.replicate 9 (chars ("x"))) 5).length = 7)) :=
  ⟨by norm_num, claim_c6 (List.replicate 9 (chars ("x"))) 5 (by norm_num)⟩

theorem mapIdxFrom_map {α β γ : Type} (g : β → γ) (f : Nat → α → β) :
    ∀ (l : List α) (s : Nat),
      (mapIdxFrom f s l).map g = mapIdxFrom (fun i a => g (f i a)) s l := by
  intro l
  induction l with
  | nil => intro s; rfl
  | cons a t ih => intro s; simp [mapIdxFrom, ih]

theorem mapIdxFrom_eq_zipWith {α β : Type} (f : Nat → α → β) :
    ∀ (l : List α) (s : Nat),
      mapIdxFrom f s l = (List.range' s l.length).zipWith f l := by
  intro l
  induction l with
  | nil => intro s; rfl
  | cons a t ih => intro s; simp [mapIdxFrom, List.range'_succ, ih]

theorem zipWith_range'_const {α β : Type} (g : Nat → β) :
    ∀ (l : List α) (s : Nat),
      (List.range' s l.length).zipWith (fun i (_ : α) => g i) l
        = (List.range' s l.length).map g := by
  intro l
  induction l with
  | nil => intro s; rfl
  | cons a t ih => intro s; simp [List.range'_succ, ih]

theorem mapIdxFrom_mem {α β : Type} (f : Nat → α → β) :
    ∀ (l : List α) (s : Nat) (x : β), x ∈ mapIdxFrom f s l → ∃ i a, x = f i a := by
  intro l
  induction l with
  | nil => intro s x h; simp [mapIdxFrom] at h
  | cons a t ih =>
    intro s x h
    rcases List.mem_cons.mp h with h1 | h1
    · exact ⟨s, a, h1⟩
    · exact ih (s + 1) x h1

/-- C5: the csv row ids are exactly the decimal numbers 1..N in parse order
with no gaps and no reordering, and the k-th document's filename starts with
the same id zero-padded to four digits. -/
theorem claim_c5 (rawLines : List Str) (fs : Str → Option (List Str)) :
    (csvRows (runMain true rawLines fs).findings).map List.head?
      = (List.range' 1 (runMain true rawLines fs).findings.length).map
          (fun n => some (natRepr n))
    ∧ (runMain true rawLines fs).docs.map Prod.fst
      = (List.range' 1 (runMain true rawLines fs).findings.length).zipWith
          (fun n it => pad4 n ++ '-' :: (deriveSafe it.content ++ chars (".md")))
          (runMain true rawLines fs).findings := by
  refine ⟨?_, ?_⟩
  · calc (csvRows (runMain true rawLines fs).findings).map List.head?
        = mapIdxFrom (fun i a => ((itemRow i a)).head?) 1
            (runMain true rawLines fs).findings := mapIdxFrom_map _ _ _ 1
      _ = (List.range' 1 (runMain true rawLines fs).findings.length).zipWith
            (fun i a => ((itemRow i a)).head?) (runMain true rawLines fs).findings :=
          mapIdxFrom_eq_zipWith _ _ 1
      _ = (List.range' 1 (runMain true rawLines fs).findings.length).zipWith
            (fun i (_ : Finding) => some (natRepr i)) (runMain true rawLines fs).findings :=
          rfl
      _ = (List.range' 1 (runMain true rawLines fs).findings.length).map
            (fun n => some (natRepr n)) := zipWith_range'_const _ _ 1
  · calc (runMain true rawLines fs).docs.map Prod.fst
        = mapIdxFrom (fun i a => Prod.fst (docName i a, docTitle a)) 1
            (runMain true rawLines fs).findings := mapIdxFrom_map _ _ _ 1
      _ = (List.range' 1 (runMain true rawLines fs).findings.length).zipWith
            (fun i a => Prod.fst (docName i a, docTitle a))
            (runMain true rawLines fs).findings := mapIdxFrom_eq_zipWith _ _ 1
      _ = (List.range' 1 (runMain true rawLines fs).findings.length).zipWith
            (fun n it => pad4 n ++ '-' :: (deriveSafe it.content ++ chars (".md")))
            (runMain true rawLines fs).findings := rfl

theorem parseQ_cons (c : Char) (t : Str) :
    parseQ (c :: t)
      = if c = '"' then
          (match t with
           | [] => ([], [])
           | c2 :: t2 =>
             if c2 = '"' then ('"' :: (parseQ t2).1, (parseQ t2).2) else ([], t))
        else (c :: (parseQ t).1, (parseQ t).2) := by
  rw [parseQ.eq_def]; rfl

theorem parseU_cons (c : Char) (t : Str) :
    parseU (c :: t)
      = if c = ',' ∨ c = '\r' then ([], c :: t)
        else (c :: (parseU t).1, (parseU t).2) := by
  rw [parseU.eq_def]

theorem parseField_cons (c : Char) (t : Str) :
    parseField (c :: t) = if c = '"' then parseQ t else parseU (c :: t) := rfl

theorem parseRowF_succ (m : Nat) (s : Str) :
    parseRowF (m + 1) s
      = match (parseField s).2 with
        | [] => ([(parseField s).1], [])
        | c :: t =>
          if c = ',' then
            ((parseField s).1 :: (parseRowF m t).1, (parseRowF m t).2)
          else if c = '\r' then
            (match t with
             | [] => ([(parseField s).1], c :: t)
             | d :: t2 =>
               if d = '\n' then ([(parseField s).1], t2)
               else ([(parseField s).1], c :: t))
          else ([(parseField s).1], c :: t) := by
  rw [parseRowF.eq_def]

theorem parseTableF_succ (m : Nat) (s : Str) :
    parseTableF (m + 1) s
      = if s = [] then []
        else (parseRowF (s.length + 1) s).1
          :: parseTableF m (parseRowF (s.length + 1) s).2 := by
  rw [parseTableF.eq_def]

/-- Reading a quoted field body back: doubled quotes collapse and the field
ends at the closing quote, provided no quote follows it immediately. -/
theorem parseQ_round (f : Str) :
    ∀ rest : Str, (∀ c, rest.head? = some c → ¬(c = '"')) →
      parseQ (dupQuotes f ++ '"' :: rest) = (f, rest) := by
  induction f with
  | nil =>
    intro rest h
    cases rest with
    | nil => rfl
    | cons c2 t2 =>
      rw [show dupQuotes [] ++ '"' :: (c2 :: t2) = '"' :: (c2 :: t2) from rfl]
      rw [parseQ_cons, if_pos rfl]
      dsimp only
      rw [if_neg (h c2 rfl)]
  | cons c f2 ih =>
    intro rest h
    by_cases hc : c = '"'
    · subst hc
      rw [show dupQuotes ('"' :: f2) ++ '"' :: rest
          = '"' :: ('"' :: (dupQuotes f2 ++ '"' :: rest)) from by
        rw [dupQuotes, if_pos rfl]; rfl]
      rw [parseQ_cons, if_pos rfl]
      dsimp only
      rw [if_pos rfl, ih rest h]
    · rw [show dupQuotes (c :: f2) ++ '"' :: rest
          = c :: (dupQuotes f2 ++ '"' :: rest) from by
        rw [dupQuotes, if_neg hc]; rfl]
      rw [parseQ_cons, if_neg hc, ih rest h]

/-- Reading an unquoted field back: it ends at the delimiter or record end. -/
theorem parseU_round (f : Str) :
    ∀ rest : Str, (∀ c ∈ f, ¬(c = ',' ∨ c = '\r')) →
      (rest = [] ∨ ∃ c t, rest = c :: t ∧ (c = ',' ∨ c = '\r')) →
      parseU (f ++ rest) = (f, rest) := by
  induction f with
  | nil =>
    intro rest _ hrest
    rcases hrest with rfl | ⟨c, t, rfl, hc⟩
    · rfl
    · rw [List.nil_append, parseU_cons, if_pos hc]
  | cons c f2 ih =>
    intro rest hf hrest
    have hc : ¬(c = ',' ∨ c = '\r') := hf c (by simp)
    rw [show (c :: f2) ++ rest = c :: (f2 ++ rest) from rfl]
    rw [parseU_cons, if_neg hc]
    rw [ih rest (fun d hd => hf d (List.mem_cons_of_mem c hd)) hrest]

/-- Reading back a rendered field recovers it exactly. -/
theorem parseField_round (f : Str) (rest : Str)
    (hrest : rest = [] ∨ ∃ c t, rest = c :: t ∧ (c = ',' ∨ c = '\r')) :
    parseField (renderField f ++ rest) = (f, rest) := by
  have hhead : ∀ c, rest.head? = some c → ¬(c = '"') := by
    intro c hch
    rcases hrest with rfl | ⟨d, t, rfl, hd⟩
    · simp at hch
    · have hdc : d = c := by simpa using hch
      subst hdc
      rcases hd with rfl | rfl <;> decide
  by_cases hq : needsQuote f = true
  · rw [renderField, if_pos hq]
    rw [show ('"' :: (dupQuotes f ++ ['"'])) ++ rest
        = '"' :: (dupQuotes f ++ '"' :: rest) from by simp]
    rw [parseField_cons, if_pos rfl]
    exact parseQ_round f rest hhead
  · rw [renderField, if_neg hq]
    have hfalse : needsQuote f = false := by revert hq; cases needsQuote f <;> simp
    have hall : ∀ c ∈ f, ¬c = ',' ∧ ¬c = '"' ∧ ¬c = '\r' ∧ ¬c = '\n' := by
      simpa [needsQuote, List.any_eq_false] using hfalse
    have hf : ∀ c ∈ f, ¬(c = ',' ∨ c = '\r') := by
      intro c hc h2
      rcases h2 with e | e
      · exact (hall c hc).1 e
      · exact (hall c hc).2.2.1 e
    cases f with
    | nil =>
      rcases hrest with rfl | ⟨c, t, rfl, hc⟩
      · rfl
      · have hcq : ¬(c = '"') := by rcases hc with rfl | rfl <;> decide
        rw [List.nil_append, parseField_cons, if_neg hcq, parseU_cons, if_pos hc]
    | cons c f2 =>
      have hcq : ¬(c = '"') := (hall c (by simp)).2.1
      rw [show (c :: f2) ++ rest = c :: (f2 ++ rest) from rfl]
      rw [parseField_cons, if_neg hcq]
      exact parseU_round (c :: f2) rest hf hrest

/-- Reading back one rendered record recovers the row and leaves the tail. -/
theorem parseRowF_round :
    ∀ (row : List Str) (fuel : Nat) (rest : Str), row ≠ [] → row.length ≤ fuel →
      parseRowF fuel (renderRow row ++ '\r' :: '\n' :: rest) = (row, rest) := by
  intro row
  induction row with
  | nil => intro fuel rest h _; exact absurd rfl h
  | cons f row2 ih =>
    intro fuel rest _ hlen
    cases fuel with
    | zero => simp at hlen
    | succ m =>
      cases row2 with
      | nil =>
        have hp := parseField_round f ('\r' :: '\n' :: rest)
          (Or.inr ⟨'\r', '\n' :: rest, rfl, Or.inr rfl⟩)
        rw [show renderRow [f] ++ '\r' :: '\n' :: rest
            = renderField f ++ '\r' :: '\n' :: rest from rfl]
        rw [parseRowF_succ, hp]
        dsimp only
        rw [if_neg (by decide), if_pos rfl, if_pos rfl]
      | cons g row3 =>
        have hp := parseField_round f
          (',' :: (renderRow (g :: row3) ++ '\r' :: '\n' :: rest))
          (Or.inr ⟨',', renderRow (g :: row3) ++ '\r' :: '\n' :: rest, rfl, Or.inl rfl⟩)
        have hrec := ih m rest (by simp) (by simp at hlen ⊢; omega)
        rw [show renderRow (f :: g :: row3) ++ '\r' :: '\n' :: rest
            = renderField f ++ (',' :: (renderRow (g :: row3) ++ '\r' :: '\n' :: rest)) from by
          rw [show renderRow (f :: g :: row3)
              = renderField f ++ ',' :: renderRow (g :: row3) from rfl]
          simp]
        rw [parseRowF_succ, hp]
        dsimp only
        rw [if_pos rfl, hrec]

theorem renderRow_length : ∀ row : List Str, row.length ≤ (renderRow row).length + 1 := by
  intro row
  induction row with
  | nil => simp [renderRow]
  | cons f fs ih =>
    cases fs with
    | nil => simp [renderRow]
    | cons g t =>
      rw [show renderRow (f :: g :: t) = renderField f ++ ',' :: renderRow (g :: t) from rfl]
      simp only [List.length_append, List.length_cons] at ih ⊢
      omega

theorem renderTable_length :
    ∀ rows : List (List Str), rows.length ≤ (renderTable rows).length := by
  intro rows
  induction rows with
  | nil => simp [renderTable]
  | cons r rs ih =>
    rw [show renderTable (r :: rs) = renderRow r ++ '\r' :: '\n' :: renderTable rs from rfl]
    simp only [List.length_append, List.length_cons]
    omega

/-- Reading back a whole rendered table of nonempty rows recovers the rows. -/
theorem parseTableF_round :
    ∀ (rows : List (List Str)) (fuel : Nat), (∀ r ∈ rows, r ≠ []) →
      rows.length ≤ fuel → parseTableF fuel (renderTable rows) = rows := by
  intro rows
  induction rows with
  | nil =>
    intro fuel _ _
    cases fuel with
    | zero => rfl
    | succ m =>
      rw [show renderTable ([] : List (List Str)) = [] from rfl]
      rw [parseTableF_succ, if_pos rfl]
  | cons r rs ih =>
    intro fuel hne hlen
    cases fuel with
    | zero => simp at hlen
    | succ m =>
      rw [show renderTable (r :: rs) = renderRow r ++ '\r' :: '\n' :: renderTable rs from rfl]
      have hs : ¬(renderRow r ++ '\r' :: '\n' :: renderTable rs = []) := by simp
      rw [parseTableF_succ, if_neg hs]
      have hfuel : r.length ≤ (renderRow r ++ '\r' :: '\n' :: renderTable rs).length + 1 := by
        have h1 := renderRow_length r
        simp only [List.length_append, List.length_cons]
        omega
      have hrow := parseRowF_round r
        ((renderRow r ++ '\r' :: '\n' :: renderTable rs).length + 1)
        (renderTable rs) (hne r (by simp)) hfuel
      rw [hrow]
      rw [ih m (fun x hx => hne x (List.mem_cons_of_mem r hx)) (by simp at hlen ⊢; omega)]

/-- C4: parsing the emitted csv reproduces the header row exactly and every
field value of every finding, one row per finding in parse order, whatever
delimiters or newlines the fields hold. -/
theorem claim_c4 (items : List Finding) :
    parseTable (csvOutput items)
      = [chars ("id"), chars ("file"), chars ("line"), chars ("marker"),
         chars ("content"), chars ("context"), chars ("priority"), chars ("owner"),
         chars ("estimate_hours"), chars ("labels")]
        :: mapIdxFrom (fun i it =>
            [natRepr i, it.file, intRepr it.line, it.marker, it.content, it.context,
             it.priority, it.owner, natRepr it.estimate, it.labels]) 1 items := by
  have hrows : ∀ r ∈ csvHeader :: csvRows items, r ≠ [] := by
    intro r hr
    rcases List.mem_cons.mp hr with rfl | hmem
    · simp [csvHeader]
    · obtain ⟨i, a, rfl⟩ := mapIdxFrom_mem _ items 1 r hmem
      simp [itemRow]
  have hlen : (csvHeader :: csvRows items).length
      ≤ (renderTable (csvHeader :: csvRows items)).length + 1 := by
    have := renderTable_length (csvHeader :: csvRows items)
    omega
  unfold parseTable csvOutput
  rw [parseTableF_round (csvHeader :: csvRows items) _ hrows hlen]
  rfl
